import Mathlib

/-!
Verification development for the zoo-locked distributed try-lock tool
(src/main.c, a modified ZooKeeper lock recipe).

Modelling conventions:
* C strings are NUL-free byte strings, modelled as `List Char` (every name
  involved is ASCII, so `Char` comparison coincides with `unsigned char`
  comparison).
* `strcmp` is embedded at sign level as an `Ordering` (the program only ever
  inspects the sign of a `strcmp` result).
* The coordination service (ZooKeeper) is an external collaborator; its
  responses are supplied by oracles (`Nat → ZErr`, `Nat → IterEnv`), one entry
  per client call or per loop iteration, so every loop of `main` becomes a
  structurally recursive function over the remaining attempt budget.
-/

/-- A candidate-node name or path: a NUL-free C string. -/
abbrev Name := List Char

/-- Sign-level embedding of C `strcmp`: lexicographic comparison of NUL-free
byte strings. -/
def strcmp : Name → Name → Ordering
  | [], [] => .eq
  | [], _ :: _ => .lt
  | _ :: _, [] => .gt
  | a :: as, b :: bs =>
    if a < b then .lt else if b < a then .gt else strcmp as bs

/-- The characters after the last dash of a name: embeds `strrchr(s, '-') + 1`
as used by `vstrcmp` in main.c line 75. (When the name contains no dash the C
code dereferences `NULL + 1`, which is undefined; all names quantified over
below contain a dash, where this total function agrees with the C code.) -/
def seqSuffix (s : Name) : Name :=
  (s.reverse.takeWhile (fun c => c != '-')).reverse

/-- Embeds `vstrcmp` (main.c lines 72-77): compare two names by the substring
after their last dash. -/
def vstrcmp (a b : Name) : Ordering :=
  strcmp (seqSuffix a) (seqSuffix b)

/-- Insert a name into a list that is ascending under `vstrcmp`. -/
def insertBySuffix (x : Name) : List Name → List Name
  | [] => [x]
  | y :: ys =>
    if vstrcmp x y ≠ Ordering.gt then x :: y :: ys else y :: insertBySuffix x ys

/-- Embeds `sort_children` (main.c lines 78-80): `qsort` of the child names
with comparator `vstrcmp`, i.e. ascending order of the sequence suffix.
`qsort` may order equal keys arbitrarily, but on child sets with pairwise
distinct suffix keys (the store contract, and the case in every concrete
input below) the ascending permutation is unique, so this insertion sort is a
faithful embedding. -/
def sort_children (v : List Name) : List Name :=
  v.foldr insertBySuffix []

/-- Embeds `child_floor` (main.c lines 82-91): scan the list left to right and
remember the last element that is whole-name `strcmp`-below `element`. -/
def child_floor (sorted_data : List Name) (element : Name) : Option Name :=
  sorted_data.foldl
    (fun ret c => if strcmp c element = Ordering.lt then some c else ret) none

/-- Embeds `strncmp(pfx, child, strlen(pfx)) == 0` on NUL-free strings: does
`child` begin with `pfx`? -/
def matchesPfx : Name → Name → Bool
  | [], _ => true
  | _ :: _, [] => false
  | a :: as, b :: bs => a == b && matchesPfx as bs

/-- Embeds `lookupnode` (main.c lines 124-137): the first child whose name
begins with the session's name prefix, if any. -/
def lookupnode : List Name → Name → Option Name
  | [], _ => none
  | c :: rest, pfx => if matchesPfx pfx c then some c else lookupnode rest pfx

/-- Embeds `getName` (main.c lines 96-101): the component after the last slash
of a path, or `none` (C: `NULL`) when the path contains no slash. -/
def getName (s : Name) : Option Name :=
  if '/' ∈ s then some ((s.reverse.takeWhile (fun c => c != '/')).reverse)
  else none

/-- The ZooKeeper client result codes the program distinguishes. `ZOTHER`
stands for every other nonzero code (e.g. `ZNOAUTH`). -/
inductive ZErr where
  | ZOK
  | ZCONNECTIONLOSS
  | ZNONODE
  | ZNODEEXISTS
  | ZOTHER
deriving DecidableEq

/-- Loop body of `retry_getchildren` (main.c lines 106-118). `oracle i` is the
result of the i-th `zoo_get_children` call issued by this wrapper; `remaining`
is `retry - count`. Returns the final result code, the number of calls issued,
and the number of `nanosleep` delays taken (one after each transient failure,
before the following retry). -/
def rgGo (oracle : Nat → ZErr) : Nat → Nat → Nat → ZErr × Nat × Nat
  | 0, calls, sleeps => (.ZCONNECTIONLOSS, calls, sleeps)
  | r + 1, calls, sleeps =>
    match oracle calls with
    | .ZCONNECTIONLOSS => rgGo oracle r (calls + 1) (sleeps + 1)
    | res => (res, calls + 1, sleeps)

/-- Embeds `retry_getchildren`: start with `ret = ZCONNECTIONLOSS`,
`count = 0`, loop while `ret == ZCONNECTIONLOSS && count < retry`. -/
def retry_getchildren (oracle : Nat → ZErr) (retry : Nat) : ZErr × Nat × Nat :=
  rgGo oracle retry 0 0

/-- Loop body of the directory bootstrap of `main` (main.c lines 222-231, the
spec's PathEnsurer). `oracle i` answers the i-th coordination call: call 0 is
the initial `zoo_exists`; each loop iteration issues exactly one further call
(a repeated `zoo_exists` after `ZCONNECTIONLOSS`, a `zoo_create` after
`ZNONODE`). `remaining` is `maxretry - count`. Returns the final result code
and the final value of `count`. -/
def ensureGo (oracle : Nat → ZErr) : Nat → Nat → ZErr → ZErr × Nat
  | 0, count, ex => (ex, count)
  | r + 1, count, ex =>
    if ex = ZErr.ZCONNECTIONLOSS ∨ ex = ZErr.ZNONODE then
      ensureGo oracle r (count + 1) (oracle (count + 1))
    else (ex, count)

/-- The whole directory-bootstrap phase: initial existence check, then the
bounded retry loop. -/
def ensure (oracle : Nat → ZErr) (maxretry : Nat) : ZErr × Nat :=
  ensureGo oracle maxretry 0 (oracle 0)

/-- The post-loop check `count >= maxretry` (main.c line 232): `true` means
the run prints "Could not create" and terminates (the spec's `Failed`). -/
def ensureFailed (oracle : Nat → ZErr) (maxretry : Nat) : Bool :=
  maxretry ≤ (ensure oracle maxretry).2

/-- The coordination service's responses during one iteration of the lock
loop. `children1` is the final outcome of the first `retry_getchildren`
(`none` models a non-`ZOK` result, whose list content the program never
reads); `createPath` is the full path returned by the ephemeral-sequential
`zoo_create`, `none` modelling failure; `children2` is the outcome of the
second `retry_getchildren`. -/
structure IterEnv where
  children1 : Option (List Name)
  createPath : Option Name
  children2 : Option (List Name)

/-- Embeds the candidate-resolution step of one iteration (main.c lines
261-277, the spec's SessionCandidateResolver): reuse the node found by
`lookupnode`, otherwise issue exactly one ephemeral-sequential `zoo_create`
and take the last path component of the returned name. Returns the resolved
candidate id (`none`: this attempt failed) and the number of `zoo_create`
calls issued. -/
def resolveCandidate (pfx : Name) (v : List Name) (createPath : Option Name) :
    Option Name × Nat :=
  match lookupnode v pfx with
  | some i => (some i, 0)
  | none =>
    match createPath with
    | none => (none, 1)
    | some retbuf => (getName retbuf, 1)

/-- Outcome of one iteration of the lock loop body. -/
inductive IterResult where
  | contA
  | blockedOn (lessthanme : Name)
  | lockedBreak (i : Name) (ownerid : Option Name)
deriving DecidableEq

/-- Embeds one iteration of the lock loop body (main.c lines 243-294, after
the sleep and prefix derivation): first enumeration, candidate resolution,
second enumeration, `sort_children`, `ownerid = vector->data[0]`,
`child_floor`, and the Locked/Blocked decision. The `Nat` component counts
`zoo_create` calls issued by the iteration. (`ownerid` is `head?` of the
sorted list: the C code reads `data[0]` and would have undefined behavior on
an empty list; the model makes that case fail the final sanity check.) -/
def lockIteration (pfx : Name) (env : IterEnv) : IterResult × Nat :=
  match env.children1 with
  | none => (.contA, 0)
  | some v =>
    match resolveCandidate pfx v env.createPath with
    | (none, n) => (.contA, n)
    | (some i, n) =>
      match env.children2 with
      | none => (.contA, n)
      | some v2 =>
        let sorted := sort_children v2
        match child_floor sorted i with
        | some l => (.blockedOn l, n)
        | none => (.lockedBreak i sorted.head?, n)

/-- The terminal outcomes of one run of the program. -/
inductive Terminal where
  | initFailed (e : Int)
  | dirFailed
  | blockedT (report : Name)
  | exhausted
  | sanityFailed
  | lockedHold
deriving DecidableEq

/-- Embeds the lock loop of `main` (main.c lines 239-294) together with its
post-loop bookkeeping (lines 295-303): the `count >= maxretry` check that
prints "Too many retries", and the final `id == ownerid` sanity check guarding
the lock-holding `sleep(10)`. `remaining = maxretry - count`; `ienv c` is the
environment seen by iteration `c` (iterations are counted from 1, as `count`
is incremented at the top of the loop body). On `blockedOn l` the program
prints `LOCKED: <path>/<l>` and jumps to `exitnow`; the report carried by
`Terminal.blockedT` is that printed path. -/
def lockLoopGo (path pfx : Name) (ienv : Nat → IterEnv) (maxretry : Nat) :
    Nat → Nat → Terminal
  | 0, _ => .exhausted
  | r + 1, count =>
    match lockIteration pfx (ienv (count + 1)) with
    | (.contA, _) => lockLoopGo path pfx ienv maxretry r (count + 1)
    | (.blockedOn l, _) => .blockedT (path ++ '/' :: l)
    | (.lockedBreak i ow, _) =>
      if maxretry ≤ count + 1 then .exhausted
      else
        match ow with
        | none => .sanityFailed
        | some o => if i = o then .lockedHold else .sanityFailed

/-- The lock phase of a run: the loop entered with `count = 0`. -/
def lockRun (path pfx : Name) (ienv : Nat → IterEnv) (maxretry : Nat) :
    Terminal :=
  lockLoopGo path pfx ienv maxretry maxretry 0

/-- The environment of a whole run: whether `zookeeper_init` succeeded, the
value of `errno` at that point, the oracle for the bootstrap phase, the lock
directory path, the session name prefix (stable for the run, since the session
id is), and the per-iteration environments of the lock loop. -/
structure ProgEnv where
  initOk : Bool
  errnoV : Int
  ensureOracle : Nat → ZErr
  path : Name
  pfx : Name
  ienv : Nat → IterEnv

/-- Embeds `main` (main.c lines 203-317): failed `zookeeper_init` returns
`errno`; then the bootstrap phase with budget 5 (fatal on failure); then the
lock loop with budget 5. -/
def progRun (env : ProgEnv) : Terminal :=
  if env.initOk then
    if 5 ≤ (ensure env.ensureOracle 5).2 then Terminal.dirFailed
    else lockRun env.path env.pfx env.ienv 5
  else Terminal.initFailed env.errnoV

/-- The process exit status of each terminal outcome: `return errno` after a
failed `zookeeper_init` (main.c line 212); every other path reaches `exitnow`
and executes `return 0` (main.c lines 315-317). -/
def exitCode : Terminal → Int
  | .initFailed e => e
  | _ => 0

/-- `ts.tv_sec = 0` (main.c line 219). -/
def ts_tv_sec : Int := 0

/-- `ts.tv_nsec = (.5)*1000000` (main.c line 220). The C expression is
evaluated in `double`; 0.5, 1000000 and their product 500000 are all exactly
representable, and the implicit conversion to `long` truncates the exact value
500000.0 to 500000, so the exact rational computation below is a faithful
embedding of the floating-point one. -/
def ts_tv_nsec : Int := Int.floor ((5 : ℚ) / 10 * 1000000)

/-- The spec's description of `floor` in the amended whole-name order: the
last element, scanning left to right, strictly `strcmp`-below the target.
(Spec-side definition, for comparison with `child_floor`.) -/
def lastBelow (l : List Name) (e : Name) : Option Name :=
  (l.filter fun c => decide (strcmp c e = Ordering.lt)).getLast?

/-- Concrete names used in counterexamples and witnesses. `exA`/`exB` and
`exC`/`exD` are pairs whose suffix order disagrees with their whole-name
order (different sessions); `exN1`/`exN2`/`exN5` share one session, matching
the spec's floor example; `f1`/`f2`/`f3` are three candidates of three
sessions with agreeing orders. -/
def exA : Name := "x-00000000000000ff-0000000001".toList

def exB : Name := "x-0000000000000001-0000000002".toList

def exC : Name := "x-00000000000000aa-0000000003".toList

def exD : Name := "x-0000000000000002-0000000004".toList

def exN1 : Name := "x-0000000000000001-0000000001".toList

def exN2 : Name := "x-0000000000000001-0000000002".toList

def exN5 : Name := "x-0000000000000001-0000000005".toList

def exPfx1 : Name := "x-0000000000000001-".toList

def exPfxA : Name := "x-00000000000000ff-".toList

def f1 : Name := "x-0000000000000001-0000000001".toList

def f2 : Name := "x-0000000000000002-0000000002".toList

def f3 : Name := "x-0000000000000003-0000000003".toList

def pfx3 : Name := "x-0000000000000003-".toList

def exPath : Name := "/lock".toList

/-- Lock-loop environment for the C3 failing run: four transient enumeration
failures, then a clean fifth iteration in which this session's node is the
only child. -/
def c3ienv : Nat → IterEnv := fun i =>
  if i < 5 then ⟨none, none, none⟩
  else ⟨some ["x-0000000000000001-0000000000".toList], none,
        some ["x-0000000000000001-0000000000".toList]⟩

/-- Bootstrap oracle for the C5 failing run: the initial check and the first
four retries see connection loss, the fifth retry's existence check succeeds. -/
def c5oracle : Nat → ZErr := fun i =>
  if i < 5 then ZErr.ZCONNECTIONLOSS else ZErr.ZOK

/-- Lock-loop environment for the C4 runs: three candidates of three sessions,
stable across both enumerations. -/
def c4ienv : Nat → IterEnv := fun _ =>
  ⟨some [f1, f2, f3], none, some [f1, f2, f3]⟩

/-- A trivial per-iteration environment (every enumeration fails). -/
def emptyIenv : Nat → IterEnv := fun _ => ⟨none, none, none⟩

/-! Ordering toolkit for `strcmp`. -/

theorem strcmp_self (a : Name) : strcmp a a = Ordering.eq := by
  induction a with
  | nil => rfl
  | cons x xs ih => simp [strcmp, ih]

theorem strcmp_cons_lt_iff (x y : Char) (xs ys : Name) :
    strcmp (x :: xs) (y :: ys) = Ordering.lt ↔
      x < y ∨ (x = y ∧ strcmp xs ys = Ordering.lt) := by
  rcases lt_trichotomy x y with h | h | h
  · simp [strcmp, h]
  · subst h; simp [strcmp, lt_irrefl]
  · simp [strcmp, not_lt.mpr (le_of_lt h), h, ne_of_gt h]

theorem strcmp_eq_iff : ∀ a b : Name, strcmp a b = Ordering.eq ↔ a = b := by
  intro a
  induction a with
  | nil => intro b; cases b <;> simp [strcmp]
  | cons x xs ih =>
    intro b
    cases b with
    | nil => simp [strcmp]
    | cons y ys =>
      rcases lt_trichotomy x y with h | h | h
      · simp [strcmp, h, ne_of_lt h]
      · subst h; simp [strcmp, lt_irrefl, ih]
      · simp [strcmp, not_lt.mpr (le_of_lt h), h, ne_of_gt h]

theorem strcmp_swap : ∀ a b : Name, strcmp b a = (strcmp a b).swap := by
  intro a
  induction a with
  | nil => intro b; cases b <;> simp [strcmp, Ordering.swap]
  | cons x xs ih =>
    intro b
    cases b with
    | nil => simp [strcmp, Ordering.swap]
    | cons y ys =>
      rcases lt_trichotomy x y with h | h | h
      · simp [strcmp, h, not_lt.mpr (le_of_lt h), ne_of_gt h, Ordering.swap]
      · subst h; simp [strcmp, lt_irrefl, ih]
      · simp [strcmp, h, not_lt.mpr (le_of_lt h), ne_of_gt h, Ordering.swap]

theorem strcmp_gt_iff (a b : Name) :
    strcmp a b = Ordering.gt ↔ strcmp b a = Ordering.lt := by
  rw [strcmp_swap a b]
  cases strcmp a b <;> simp [Ordering.swap]

theorem strcmp_lt_trans :
    ∀ a b c : Name, strcmp a b = Ordering.lt → strcmp b c = Ordering.lt →
      strcmp a c = Ordering.lt := by
  intro a
  induction a with
  | nil =>
    intro b c hab hbc
    cases c with
    | nil =>
      cases b with
      | nil => exact hab
      | cons y ys => simp [strcmp] at hbc
    | cons z zs => simp [strcmp]
  | cons x xs ih =>
    intro b c hab hbc
    cases b with
    | nil => simp [strcmp] at hab
    | cons y ys =>
      cases c with
      | nil => simp [strcmp] at hbc
      | cons z zs =>
        rw [strcmp_cons_lt_iff] at hab hbc ⊢
        rcases hab with h1 | ⟨h1, h1s⟩
        · rcases hbc with h2 | ⟨h2, h2s⟩
          · exact Or.inl (lt_trans h1 h2)
          · exact Or.inl (h2 ▸ h1)
        · rcases hbc with h2 | ⟨h2, h2s⟩
          · exact Or.inl (h1 ▸ h2)
          · exact Or.inr ⟨h1.trans h2, ih ys zs h1s h2s⟩

theorem strcmp_ne_gt (a b : Name) :
    strcmp a b ≠ Ordering.gt ↔ a = b ∨ strcmp a b = Ordering.lt := by
  constructor
  · intro h
    cases hc : strcmp a b with
    | lt => exact Or.inr rfl
    | eq => exact Or.inl ((strcmp_eq_iff a b).mp hc)
    | gt => exact absurd hc h
  · intro h
    rcases h with h | h
    · subst h; rw [strcmp_self]; simp
    · rw [h]; simp

/-- Every nonempty list of names has a minimum in whole-name `strcmp` order. -/
theorem exists_strcmp_min :
    ∀ l : List Name, l ≠ [] →
      ∃ m, m ∈ l ∧ ∀ e ∈ l, strcmp m e ≠ Ordering.gt := by
  intro l
  induction l with
  | nil => intro h; exact absurd rfl h
  | cons x xs ih =>
    intro _
    cases hxs : xs with
    | nil =>
      refine ⟨x, List.mem_singleton_self x, ?_⟩
      intro e he
      rw [List.mem_singleton] at he
      subst he
      rw [strcmp_self]
      simp
    | cons y ys =>
      obtain ⟨m, hm, hmin⟩ := ih (by simp [hxs])
      rw [hxs] at hm hmin
      by_cases hxm : strcmp x m = Ordering.gt
      · refine ⟨m, List.mem_cons_of_mem x hm, ?_⟩
        intro e he
        rcases List.mem_cons.mp he with he | he
        · subst he
          rw [strcmp_gt_iff] at hxm
          rw [hxm]
          simp
        · exact hmin e he
      · refine ⟨x, List.mem_cons_self x _, ?_⟩
        intro e he
        rcases List.mem_cons.mp he with he | he
        · subst he; rw [strcmp_self]; simp
        · rcases (strcmp_ne_gt x m).mp hxm with h | h
          · subst h; exact hmin e he
          · rcases (strcmp_ne_gt m e).mp (hmin e he) with h2 | h2
            · subst h2
              rw [strcmp_ne_gt]
              exact Or.inr h
            · rw [strcmp_ne_gt]
              exact Or.inr (strcmp_lt_trans x m e h h2)

/-! Characterization of `child_floor`. -/

theorem getLast?_cons_or {α : Type} (a : α) (l : List α) :
    (a :: l).getLast? = Option.or l.getLast? (some a) := by
  induction l with
  | nil => rfl
  | cons b bs _ =>
    rw [List.getLast?_cons_cons]
    cases h : (b :: bs).getLast? with
    | none => simp [List.getLast?] at h
    | some x => simp [Option.or]

theorem child_floor_foldl (e : Name) :
    ∀ (l : List Name) (acc : Option Name),
      List.foldl
        (fun ret c => if strcmp c e = Ordering.lt then some c else ret) acc l =
      Option.or
        (l.filter fun c => decide (strcmp c e = Ordering.lt)).getLast? acc := by
  intro l
  induction l with
  | nil => intro acc; simp [Option.or]
  | cons x xs ih =>
    intro acc
    rw [List.foldl_cons, ih]
    by_cases h : strcmp x e = Ordering.lt
    · rw [List.filter_cons_of_pos (by simp [h]), getLast?_cons_or]
      cases hl : (xs.filter fun c => decide (strcmp c e = Ordering.lt)).getLast? with
      | none => simp [h, Option.or]
      | some z => simp [h, Option.or]
    · rw [List.filter_cons_of_neg (by simp [h])]
      simp [h]

/-- `child_floor` returns the last element of the scan that is whole-name
`strcmp`-below the target. -/
theorem child_floor_eq_lastBelow (l : List Name) (e : Name) :
    child_floor l e = lastBelow l e := by
  rw [child_floor, lastBelow, child_floor_foldl]
  cases (l.filter fun c => decide (strcmp c e = Ordering.lt)).getLast? <;>
    simp [Option.or]

/-- `child_floor` returns `none` exactly when no element of the list is
whole-name `strcmp`-below the target. -/
theorem child_floor_eq_none_iff (l : List Name) (e : Name) :
    child_floor l e = none ↔ ∀ c ∈ l, strcmp c e ≠ Ordering.lt := by
  rw [child_floor_eq_lastBelow, lastBelow, List.getLast?_eq_none_iff,
    List.filter_eq_nil_iff]
  simp

/-- C1: counterexample. For the ordered sequence `[exA, exB]` — sorted by
sequence suffix, with distinct zero-padded fixed-width suffixes 0000000001 and
0000000002 — the claim says the unique name with `floor = none` is the
sequence-order minimum `exA`. In fact `child_floor` compares whole names, so
the unique name with `floor = none` is `exB` (the whole-name minimum, its
session field being smaller), `exB` is not the sequence minimum, and the
decision step sees `floor = none` for a name different from the minimum. -/
theorem spec_c1_counterexample :
    List.Pairwise (fun a b => vstrcmp a b = Ordering.lt) [exA, exB] ∧
    child_floor [exA, exB] exB = none ∧
    child_floor [exA, exB] exA = some exB ∧
    exB ≠ exA := by decide

/-- C1 (amended): for every nonempty candidate sequence sorted by its distinct
sequence suffixes, exactly one name yields `child_floor = none`, and that name
is the sequence's minimum in whole-name `strcmp` order (which coincides with
sequence order only when all candidates agree up to the last dash);
consequently, when the decision step sees `floor = none` for `myName`,
`myName` is the whole-name minimum of the sequence. -/
theorem spec_c1_amended (seq : List Name) (hne : seq ≠ [])
    (_hsorted : List.Pairwise (fun a b => vstrcmp a b = Ordering.lt) seq) :
    ∃ m, m ∈ seq ∧ child_floor seq m = none ∧
      (∀ e ∈ seq, strcmp m e ≠ Ordering.gt) ∧
      ∀ e ∈ seq, child_floor seq e = none → e = m := by
  obtain ⟨m, hm, hmin⟩ := exists_strcmp_min seq hne
  refine ⟨m, hm, ?_, hmin, ?_⟩
  · rw [child_floor_eq_none_iff]
    intro c hc hlt
    exact hmin c hc ((strcmp_gt_iff m c).mpr hlt)
  · intro e he hfe
    rw [child_floor_eq_none_iff] at hfe
    have h1 := hfe m hm
    have h2 := hmin e he
    cases hc : strcmp m e with
    | lt => exact absurd hc h1
    | eq => exact ((strcmp_eq_iff m e).mp hc).symm
    | gt => exact absurd hc h2

/-- C1: witness for the amended theorem at the concrete ordered sequence
`[exA, exB]`. -/
theorem spec_c1_witness :
    ∃ m, m ∈ [exA, exB] ∧ child_floor [exA, exB] m = none ∧
      (∀ e ∈ [exA, exB], strcmp m e ≠ Ordering.gt) ∧
      ∀ e ∈ [exA, exB], child_floor [exA, exB] e = none → e = m :=
  spec_c1_amended [exA, exB] (by decide) (by decide)

/-- C2: counterexample. `[exC, exD]` is sorted by sequence suffix and `exC` is
its minimum in sequence order, so the claim requires `floor(seq, exC) = none`;
the code returns `some exD`, because `exD` is whole-name `strcmp`-below `exC`
(their session fields differ), i.e. `child_floor` does not use sequence
order. -/
theorem spec_c2_counterexample :
    List.Pairwise (fun a b => vstrcmp a b = Ordering.lt) [exC, exD] ∧
    child_floor [exC, exD] exC = some exD := by decide

/-- C2 (amended): for every sequence and target, `child_floor` returns the
last element, scanning left to right, that is strictly below the target in
whole-name `strcmp` order (`lastBelow`), and returns `none` exactly when no
element of the sequence is whole-name below the target (the target is the
whole-name minimum); in particular, on the spec's example — a common session
field, where whole-name order and sequence order coincide — floor of
`x-...-0000000002` is `x-...-0000000001` and floor of `x-...-0000000001` is
`none`. -/
theorem spec_c2_amended :
    (∀ (l : List Name) (e : Name), child_floor l e = lastBelow l e) ∧
    (∀ (l : List Name) (e : Name),
      (child_floor l e = none ↔ ∀ c ∈ l, strcmp c e ≠ Ordering.lt)) ∧
    child_floor [exN1, exN2, exN5] exN2 = some exN1 ∧
    child_floor [exN1, exN2, exN5] exN1 = none :=
  ⟨child_floor_eq_lastBelow, child_floor_eq_none_iff, by decide, by decide⟩

/-- C2: witness instantiating the amended characterization at a concrete
sequence and target. -/
theorem spec_c2_witness :
    child_floor [exC, exD] exC = lastBelow [exC, exD] exC :=
  spec_c2_amended.1 [exC, exD] exC

/-- C9: the retry delay `timespec` is 0 seconds and exactly 500000
nanoseconds, i.e. half a millisecond — sub-millisecond, a thousandth of the
intended half second. -/
theorem spec_c9_delay :
    ts_tv_sec = 0 ∧ ts_tv_nsec = 500000 ∧ ts_tv_nsec < 1000000 := by
  have h : ts_tv_nsec = 500000 := by rw [ts_tv_nsec]; norm_num
  exact ⟨rfl, h, by rw [h]; norm_num⟩

/-- C3: the failing run. With four transient enumeration failures followed by
a clean fifth iteration (this session's node the only child), iteration 5 —
the last one the attempt budget permits — decides Locked (`lockedBreak`),
yet the run's terminal outcome is `exhausted`: the loop exits by `break` with
`count == maxretry`, and the post-loop `count >= maxretry` check (main.c line
295) misreports "Too many retries". The claim (and the code's own
"i got the lock" comment) require the terminal outcome Locked. -/
theorem spec_c3_bug :
    (lockIteration exPfx1 (c3ienv 5)).1 =
      IterResult.lockedBreak ("x-0000000000000001-0000000000".toList)
        (some ("x-0000000000000001-0000000000".toList)) ∧
    lockRun exPath exPfx1 c3ienv 5 = Terminal.exhausted := by decide

/-- C5: the failing run. The initial existence check and the first four
retries see `ZCONNECTIONLOSS`; the fifth retry — still permitted by the loop
condition `count < maxretry` — succeeds (`ZOK`). The loop then exits with
`exists == ZOK` and `count == 5`, and the post-loop `count >= maxretry` check
(main.c line 232) reports Failed ("Could not create") and terminates the run,
although an existence check succeeded within the budget; the claim requires
Ready. -/
theorem spec_c5_bug :
    ensure c5oracle 5 = (ZErr.ZOK, 5) ∧
    ensureFailed c5oracle 5 = true ∧
    progRun ⟨true, 0, c5oracle, exPath, exPfx1, emptyIenv⟩ =
      Terminal.dirFailed := by decide

/-- C4: counterexample. Three candidates of three sessions (whole-name and
sequence order agreeing), this session owning the third: the run ends Blocked
and exits 0, but the holder name it reports is `f2` — the floor (immediate
predecessor) of this session's candidate — while the minimum of the ordered
child sequence is `f1`. The claim says the reported name is the minimum. -/
theorem spec_c4_counterexample :
    lockRun exPath pfx3 c4ienv 5 = Terminal.blockedT (exPath ++ '/' :: f2) ∧
    (sort_children [f1, f2, f3]).head? = some f1 ∧
    f2 ≠ f1 ∧
    exitCode (Terminal.blockedT (exPath ++ '/' :: f2)) = 0 := by decide

/-- Inversion of a Blocked iteration: it arises from a successful first
enumeration, a successfully resolved candidate of this session
(`resolveCandidate` with this session's prefix), and a successful second
enumeration whose sorted form has a `child_floor` below that candidate. -/
theorem lockIteration_blocked_inv (pfx : Name) (env : IterEnv) (l : Name)
    (n : Nat) (h : lockIteration pfx env = (IterResult.blockedOn l, n)) :
    ∃ v1 i v2, env.children1 = some v1 ∧
      (resolveCandidate pfx v1 env.createPath).1 = some i ∧
      env.children2 = some v2 ∧
      child_floor (sort_children v2) i = some l := by
  cases h1 : env.children1 with
  | none => simp [lockIteration, h1] at h
  | some v =>
    simp only [lockIteration, h1] at h
    cases h2 : resolveCandidate pfx v env.createPath with
    | mk oid n' =>
      rw [h2] at h
      cases oid with
      | none => simp at h
      | some i =>
        simp only at h
        cases h3 : env.children2 with
        | none => simp [h3] at h
        | some v2 =>
          simp only [h3] at h
          cases h4 : child_floor (sort_children v2) i with
          | none => simp [h4] at h
          | some lv =>
            simp [h4] at h
            exact ⟨v, i, v2, rfl, by rw [h2], rfl, by rw [h4, h.1]⟩

/-- C4 (amended): every run of the lock loop that ends Blocked exits with
status 0, and the name it reports as the current holder comes from the
iteration `k` that decided Blocked: `i` is this session's candidate, resolved
there by `resolveCandidate` with this session's prefix over that iteration's
first enumeration, and the reported name is the `child_floor` of `i` within
that iteration's freshly sorted second enumeration — the immediate
predecessor in whole-name order, prefixed by the lock path — not in general
the minimum element of that sequence. -/
theorem spec_c4_amended (path pfx : Name) (ienv : Nat → IterEnv)
    (mr : Nat) :
    ∀ (r count : Nat) (rep : Name),
      lockLoopGo path pfx ienv mr r count = Terminal.blockedT rep →
      exitCode (Terminal.blockedT rep) = 0 ∧
      ∃ k v1 i v2 l, count < k ∧ k ≤ count + r ∧
        (lockIteration pfx (ienv k)).1 = IterResult.blockedOn l ∧
        (ienv k).children1 = some v1 ∧
        (resolveCandidate pfx v1 (ienv k).createPath).1 = some i ∧
        (ienv k).children2 = some v2 ∧
        child_floor (sort_children v2) i = some l ∧
        rep = path ++ '/' :: l := by
  intro r
  induction r with
  | zero => intro count rep h; simp [lockLoopGo] at h
  | succ r ih =>
    intro count rep h
    rw [lockLoopGo] at h
    cases hit : lockIteration pfx (ienv (count + 1)) with
    | mk res n =>
      rw [hit] at h
      cases res with
      | contA =>
        obtain ⟨he, k, v1, i, v2, l, hk1, hk2, hbl, h1, hres, hv, hf, hr⟩ :=
          ih (count + 1) rep h
        exact ⟨he, k, v1, i, v2, l, by omega, by omega, hbl, h1, hres, hv,
          hf, hr⟩
      | blockedOn l =>
        simp at h
        refine ⟨rfl, count + 1, ?_⟩
        obtain ⟨v1, i, v2, h1, hres, hv, hf⟩ :=
          lockIteration_blocked_inv pfx (ienv (count + 1)) l n hit
        exact ⟨v1, i, v2, l, by omega, by omega, by rw [hit], h1, hres, hv,
          hf, h.symm⟩
      | lockedBreak i ow =>
        by_cases hc : mr ≤ count + 1
        · simp [hc] at h
        · cases ow with
          | none => simp [hc] at h
          | some o => by_cases hio : i = o <;> simp [hc, hio] at h

/-- C4: witness for the amended theorem — the concrete Blocked run of the
counterexample environment, via the theorem itself. -/
theorem spec_c4_witness :
    exitCode (Terminal.blockedT (exPath ++ '/' :: f2)) = 0 ∧
    ∃ k v1 i v2 l, 0 < k ∧ k ≤ 0 + 5 ∧
      (lockIteration pfx3 (c4ienv k)).1 = IterResult.blockedOn l ∧
      (c4ienv k).children1 = some v1 ∧
      (resolveCandidate pfx3 v1 (c4ienv k).createPath).1 = some i ∧
      (c4ienv k).children2 = some v2 ∧
      child_floor (sort_children v2) i = some l ∧
      exPath ++ '/' :: f2 = exPath ++ '/' :: l :=
  spec_c4_amended exPath pfx3 c4ienv 5 5 0 (exPath ++ '/' :: f2) (by decide)

/-- C6: if the child set already contains a name beginning with this session's
prefix, `lookupnode` finds such a name (the first one), and the candidate
resolution returns it with zero `zoo_create` calls — for every possible
create-oracle value, hence identically on a repeated run over the same child
set: registration is idempotent. -/
theorem spec_c6_idempotent (pfx : Name) (v : List Name)
    (h : ∃ c ∈ v, matchesPfx pfx c = true) :
    ∃ c0, lookupnode v pfx = some c0 ∧ c0 ∈ v ∧ matchesPfx pfx c0 = true ∧
      ∀ cp : Option Name, resolveCandidate pfx v cp = (some c0, 0) := by
  induction v with
  | nil => simp at h
  | cons x xs ih =>
    by_cases hx : matchesPfx pfx x = true
    · refine ⟨x, ?_, List.mem_cons_self x xs, hx, ?_⟩
      · simp [lookupnode, hx]
      · intro cp; simp [resolveCandidate, lookupnode, hx]
    · obtain ⟨c, hc, hcp⟩ := h
      rcases List.mem_cons.mp hc with rfl | hc2
      · exact absurd hcp hx
      · obtain ⟨c0, h1, h2, h3, _h4⟩ := ih ⟨c, hc2, hcp⟩
        refine ⟨c0, ?_, List.mem_cons_of_mem x h2, h3, ?_⟩
        · simp [lookupnode, hx, h1]
        · intro cp
          simp [resolveCandidate, lookupnode, hx, h1]

/-- C6: witness — a child set already holding this session's node. -/
theorem spec_c6_witness :
    ∃ c0, lookupnode [exA] exPfxA = some c0 ∧ c0 ∈ [exA] ∧
      matchesPfx exPfxA c0 = true ∧
      ∀ cp : Option Name, resolveCandidate exPfxA [exA] cp = (some c0, 0) :=
  spec_c6_idempotent exPfxA [exA] (by decide)

/-- C7: the ephemeral-sequential create is never retried within one lock
attempt. (1) candidate resolution issues at most one `zoo_create` call;
(2) when the reuse scan finds nothing and the single create fails, the
iteration issues exactly that one call and ends as `contA`, advancing the
run; (3) a `contA` iteration makes the outer loop proceed to the next
iteration, whose body re-derives all candidate state from its own fresh
enumeration and reuse scan. -/
theorem spec_c7_create_once :
    (∀ (pfx : Name) (v : List Name) (cp : Option Name),
      (resolveCandidate pfx v cp).2 ≤ 1) ∧
    (∀ (pfx : Name) (env : IterEnv) (v : List Name),
      env.children1 = some v → lookupnode v pfx = none →
      env.createPath = none →
      lockIteration pfx env = (IterResult.contA, 1)) ∧
    (∀ (path pfx : Name) (ienv : Nat → IterEnv) (mr r count : Nat),
      (lockIteration pfx (ienv (count + 1))).1 = IterResult.contA →
      lockLoopGo path pfx ienv mr (r + 1) count =
        lockLoopGo path pfx ienv mr r (count + 1)) := by
  refine ⟨?_, ?_, ?_⟩
  · intro pfx v cp
    cases hl : lookupnode v pfx <;> cases cp <;> simp [resolveCandidate, hl]
  · intro pfx env v h1 h2 h3
    simp [lockIteration, h1, resolveCandidate, h2, h3]
  · intro path pfx ienv mr r count hres
    cases hit : lockIteration pfx (ienv (count + 1)) with
    | mk res n =>
      rw [hit] at hres
      simp at hres
      subst hres
      simp [lockLoopGo, hit]

/-- C7: witness — an iteration whose reuse scan finds nothing and whose
single create fails issues exactly one create and continues. -/
theorem spec_c7_witness :
    lockIteration exPfxA ⟨some [exB], none, none⟩ = (IterResult.contA, 1) :=
  spec_c7_create_once.2.1 exPfxA ⟨some [exB], none, none⟩ [exB] rfl (by decide)
    rfl

/-- If the first k `zoo_get_children` calls return `ZCONNECTIONLOSS` and the
next returns anything else, the wrapper stops at that call. -/
theorem rgGo_first_success (oracle : Nat → ZErr) :
    ∀ (k fuel calls sleeps : Nat) (res : ZErr),
      (∀ i, i < k → oracle (calls + i) = ZErr.ZCONNECTIONLOSS) →
      oracle (calls + k) = res → res ≠ ZErr.ZCONNECTIONLOSS → k < fuel →
      rgGo oracle fuel calls sleeps = (res, calls + k + 1, sleeps + k) := by
  intro k
  induction k with
  | zero =>
    intro fuel calls sleeps res _hpre hk hne hlt
    cases fuel with
    | zero => omega
    | succ f =>
      rw [Nat.add_zero] at hk
      simp only [rgGo, hk]
      cases res with
      | ZCONNECTIONLOSS => exact absurd rfl hne
      | ZOK => simp
      | ZNONODE => simp
      | ZNODEEXISTS => simp
      | ZOTHER => simp
  | succ k ih =>
    intro fuel calls sleeps res hpre hk hne hlt
    cases fuel with
    | zero => omega
    | succ f =>
      have h0 : oracle calls = ZErr.ZCONNECTIONLOSS := by
        have := hpre 0 (Nat.succ_pos k)
        simpa using this
      simp only [rgGo, h0]
      have hpre2 : ∀ i, i < k →
          oracle (calls + 1 + i) = ZErr.ZCONNECTIONLOSS := by
        intro i hi
        have := hpre (i + 1) (by omega)
        rw [show calls + 1 + i = calls + (i + 1) by omega]
        exact this
      have hk2 : oracle (calls + 1 + k) = res := by
        rw [show calls + 1 + k = calls + (k + 1) by omega]
        exact hk
      rw [ih f (calls + 1) (sleeps + 1) res hpre2 hk2 hne (by omega)]
      simp only [Prod.mk.injEq]
      exact ⟨trivial, by omega, by omega⟩

/-- The wrapper never issues more calls than the budget. -/
theorem rgGo_calls_le (oracle : Nat → ZErr) :
    ∀ fuel calls sleeps,
      (rgGo oracle fuel calls sleeps).2.1 ≤ calls + fuel := by
  intro fuel
  induction fuel with
  | zero => intro calls sleeps; simp [rgGo]
  | succ f ih =>
    intro calls sleeps
    simp only [rgGo]
    cases h : oracle calls with
    | ZCONNECTIONLOSS =>
      have := ih (calls + 1) (sleeps + 1)
      simp only []
      omega
    | ZOK => simp
    | ZNONODE => simp
    | ZNODEEXISTS => simp
    | ZOTHER => simp

/-- When every call within the budget reports connection loss, the wrapper
returns `ZCONNECTIONLOSS` after exactly the budgeted number of calls. -/
theorem rgGo_all_loss (oracle : Nat → ZErr) :
    ∀ fuel calls sleeps,
      (∀ i, i < fuel → oracle (calls + i) = ZErr.ZCONNECTIONLOSS) →
      rgGo oracle fuel calls sleeps =
        (ZErr.ZCONNECTIONLOSS, calls + fuel, sleeps + fuel) := by
  intro fuel
  induction fuel with
  | zero => intro calls sleeps _; simp [rgGo]
  | succ f ih =>
    intro calls sleeps h
    have h0 : oracle calls = ZErr.ZCONNECTIONLOSS := by
      have := h 0 (Nat.succ_pos f)
      simpa using this
    simp only [rgGo, h0]
    have h2 : ∀ i, i < f → oracle (calls + 1 + i) = ZErr.ZCONNECTIONLOSS := by
      intro i hi
      have := h (i + 1) (by omega)
      rw [show calls + 1 + i = calls + (i + 1) by omega]
      exact this
    rw [ih (calls + 1) (sleeps + 1) h2]
    simp only [Prod.mk.injEq]
    exact ⟨trivial, by omega, by omega⟩

/-- C8: the child-enumeration wrapper retries only on `ZCONNECTIONLOSS`.
(1) If the first k calls report connection loss and call k+1 (within the
budget) reports any other result, that result is returned immediately after
k+1 calls, with exactly k delays — one before each retry — and no further
attempt; (2) the number of calls never exceeds the budget; (3) if every
budgeted call reports connection loss, the wrapper returns
`ZCONNECTIONLOSS` after exactly `retry` calls and `retry` delays. -/
theorem spec_c8_retry_policy :
    (∀ (oracle : Nat → ZErr) (retry k : Nat) (res : ZErr),
      (∀ i, i < k → oracle i = ZErr.ZCONNECTIONLOSS) →
      oracle k = res → res ≠ ZErr.ZCONNECTIONLOSS → k < retry →
      retry_getchildren oracle retry = (res, k + 1, k)) ∧
    (∀ (oracle : Nat → ZErr) (retry : Nat),
      (retry_getchildren oracle retry).2.1 ≤ retry) ∧
    (∀ (oracle : Nat → ZErr) (retry : Nat),
      (∀ i, i < retry → oracle i = ZErr.ZCONNECTIONLOSS) →
      retry_getchildren oracle retry =
        (ZErr.ZCONNECTIONLOSS, retry, retry)) := by
  refine ⟨?_, ?_, ?_⟩
  · intro oracle retry k res hpre hk hne hlt
    have := rgGo_first_success oracle k retry 0 0 res
      (by simpa using hpre) (by simpa using hk) hne hlt
    simpa [retry_getchildren] using this
  · intro oracle retry
    have := rgGo_calls_le oracle retry 0 0
    simpa [retry_getchildren] using this
  · intro oracle retry h
    have := rgGo_all_loss oracle retry 0 0 (by simpa using h)
    simpa [retry_getchildren] using this

/-- C8: witness — two transient failures, then `ZNONODE`, which is returned
at once after the third call and two inter-attempt delays. -/
theorem spec_c8_witness :
    retry_getchildren
      (fun i => if i < 2 then ZErr.ZCONNECTIONLOSS else ZErr.ZNONODE) 5 =
      (ZErr.ZNONODE, 3, 2) :=
  spec_c8_retry_policy.1 _ 5 2 ZErr.ZNONODE (by decide) (by decide) (by decide)
    (by decide)

/-- The lock loop can only end in outcomes whose exit status is 0. -/
theorem exitCode_lockLoopGo (path pfx : Name) (ienv : Nat → IterEnv)
    (mr : Nat) :
    ∀ r count, exitCode (lockLoopGo path pfx ienv mr r count) = 0 := by
  intro r
  induction r with
  | zero => intro count; rfl
  | succ r ih =>
    intro count
    simp only [lockLoopGo]
    cases hit : lockIteration pfx (ienv (count + 1)) with
    | mk res n =>
      cases res with
      | contA => exact ih (count + 1)
      | blockedOn l => rfl
      | lockedBreak i ow =>
        by_cases hc : mr ≤ count + 1
        · simp [hc, exitCode]
        · cases ow with
          | none => simp [hc, exitCode]
          | some o => by_cases hio : i = o <;> simp [hc, hio, exitCode]

/-- Every run whose client handle initialized exits with status 0. -/
theorem progRun_exitCode_zero (env : ProgEnv) (h : env.initOk = true) :
    exitCode (progRun env) = 0 := by
  rw [progRun]
  simp only [h]
  by_cases hd : 5 ≤ (ensure env.ensureOracle 5).2
  · simp [hd, exitCode]
  · simp [hd, lockRun, exitCode_lockLoopGo]

/-- C10: after a successful client initialization every terminal path —
Locked, Blocked, directory failure, retry exhaustion (and the silent sanity
failure) — exits with status 0, so the outcomes are indistinguishable by exit
code; a nonzero exit status can only come from a failed initialization, which
returns `errno`. -/
theorem spec_c10_exit_codes :
    (∀ env : ProgEnv, env.initOk = true → exitCode (progRun env) = 0) ∧
    (∀ env : ProgEnv, exitCode (progRun env) ≠ 0 →
      env.initOk = false ∧ progRun env = Terminal.initFailed env.errnoV) ∧
    exitCode Terminal.dirFailed = 0 ∧
    exitCode Terminal.exhausted = 0 ∧
    exitCode Terminal.lockedHold = 0 ∧
    (∀ rep : Name, exitCode (Terminal.blockedT rep) = 0) ∧
    (∀ e : Int, exitCode (Terminal.initFailed e) = e) := by
  refine ⟨progRun_exitCode_zero, ?_, rfl, rfl, rfl, fun _ => rfl, fun _ => rfl⟩
  intro env h
  by_cases hi : env.initOk = true
  · exact absurd (progRun_exitCode_zero env hi) h
  · have hif : env.initOk = false := by
      cases he : env.initOk
      · rfl
      · exact absurd he hi
    refine ⟨hif, ?_⟩
    rw [progRun]
    simp [hif]

/-- C10: witness — a run with a working handle and an immediately existing
directory exits 0. -/
theorem spec_c10_witness :
    exitCode (progRun ⟨true, 7, fun _ => ZErr.ZOK, exPath, exPfx1, emptyIenv⟩) =
      0 :=
  spec_c10_exit_codes.1 ⟨true, 7, fun _ => ZErr.ZOK, exPath, exPfx1, emptyIenv⟩
    rfl
